import Mathlib

set_option maxRecDepth 100000

/-!
Verification of the OrgoPivy text segmentation, term-scoring and
extractive-answer engine (`api/app/ingest.py` and `api/app/main.py`).

Strings are modelled as `List Char` internally (with `String` wrappers at
the interfaces), Python's `int` arithmetic on indices as `Nat` (all index
arithmetic in the source is non-negative, and Python's `max(0, e - ov)`
coincides with truncated subtraction), and Python dictionaries that may
lack a key as structures with `Option` fields.  Fallible code returns
`Except PyErr`.  The `while` loop of `chunk_text` is modelled with an
explicit fuel parameter (`none` = the loop has not finished within the
given number of iterations), since for some configurations the source
loop does not terminate.  All definitions are structurally recursive so
that concrete runs reduce inside the kernel.
-/

namespace OrgoPivy

/-- The characters matched by Python's `\s` / `str.strip` /
`str.isspace` for ASCII text: space, tab, newline, carriage return,
vertical tab, form feed. -/
def isPySpace (c : Char) : Bool :=
  c = ' ' || c = '\t' || c = '\n' || c = '\r' ||
  c = Char.ofNat 11 || c = Char.ofNat 12

/-- Python `str.lower()`, character-wise (ASCII; the source is only exercised on
ASCII text). -/
def lowerL (s : List Char) : List Char := s.map Char.toLower

/-- Auxiliary scan for `re.sub(r"\s+", " ", text)`: the flag records
whether we are currently inside a whitespace run that has already been
replaced by one space. -/
def collapseAux : Bool → List Char → List Char
  | _, [] => []
  | inRun, c :: rest =>
    if isPySpace c then
      if inRun then collapseAux true rest else ' ' :: collapseAux true rest
    else c :: collapseAux false rest

/-- Model of `re.sub(r"\s+", " ", text)`: every maximal whitespace run becomes a
single space. -/
def collapseWs (s : List Char) : List Char := collapseAux false s

/-- Remove trailing Python-whitespace. -/
def dropTrail (s : List Char) : List Char :=
  (s.reverse.dropWhile isPySpace).reverse

/-- Python `str.strip()`. -/
def pyStrip (s : List Char) : List Char :=
  dropTrail (s.dropWhile isPySpace)

/-- The `normalize` function of `ingest.py`: lower-case, collapse whitespace runs to
a single space, strip. -/
def normalizeL (s : List Char) : List Char := pyStrip (collapseWs (lowerL s))

/-- The `normalize` function at the `String` interface. -/
def normalize (s : String) : String := String.mk (normalizeL s.data)

/-- Python `q.split(" ")`: split on every single space character, keeping
empty pieces. -/
def splitSp : List Char → List (List Char)
  | [] => [[]]
  | c :: rest =>
    if c = ' ' then [] :: splitSp rest
    else
      match splitSp rest with
      | [] => [[c]]
      | p :: ps => (c :: p) :: ps

/-- Boolean list-prefix test (`t` begins `s`). -/
def isPre : List Char → List Char → Bool
  | [], _ => true
  | _ :: _, [] => false
  | a :: as, b :: bs => a == b && isPre as bs

/-- Python's `t in s` substring test. -/
def isSub (t : List Char) : List Char → Bool
  | [] => t.isEmpty
  | c :: cs => isPre t (c :: cs) || isSub t cs

/-- Structural scan for Python `s.count(t)`: the `Nat` argument is the
number of characters still to be skipped because they belong to a match
that has already been counted. -/
def pyCountAux (t : List Char) : Nat → List Char → Nat
  | _, [] => 0
  | 0, c :: cs =>
    if isPre t (c :: cs) then 1 + pyCountAux t (t.length - 1) cs
    else pyCountAux t 0 cs
  | k + 1, _ :: cs => pyCountAux t k cs

/-- Python `s.count(t)` for non-empty `t`: number of occurrences found by
the greedy left-to-right non-overlapping scan (on a match, the scan jumps
past the whole match). -/
def pyCount (t s : List Char) : Nat := pyCountAux t 0 s

/-- The `score` function of `ingest.py` on character lists: normalize both inputs,
split the query on spaces, drop empty terms, then for every term of
length at least 2 add the non-overlapping occurrence count of the term in
the normalized chunk. -/
def scoreL (query chunk : List Char) : Nat :=
  let q := normalizeL query
  let c := normalizeL chunk
  if q = [] then 0
  else
    let terms := (splitSp q).filter (fun t => !t.isEmpty)
    terms.foldl (fun s t => if t.length < 2 then s else s + pyCount t c) 0

/-- The `score` function at the `String` interface. -/
def score (query chunk : String) : Nat := scoreL query.data chunk.data

/-- Python `text.replace("\r\n", "\n")` (left-to-right, non-overlapping). -/
def replaceCrlf : List Char → List Char
  | [] => []
  | '\r' :: '\n' :: rest => '\n' :: replaceCrlf rest
  | c :: rest => c :: replaceCrlf rest

/-- Python slice `l[a:b]` for `0 ≤ a ≤ b`. -/
def sliceL (l : List Char) (a b : Nat) : List Char := (l.drop a).take (b - a)

/-- Python `w.rfind("\n\n")`: index of the last occurrence of two
consecutive newlines, if any. -/
def rfind2 (w : List Char) : Option Nat :=
  ((List.range w.length).filter
    (fun i => (w.drop i).take 2 == ['\n', '\n'])).getLast?

/-- The `while start < n` loop of `chunk_text`, with fuel.  One fuel unit
is one loop iteration; `none` means the loop has not finished within the
given fuel.  Mirrors the source: candidate end `min(start + max_chars, n)`,
snapped back to the last `"\n\n"` of the window when that window does not
reach the end of the text and the cut offset exceeds `max_chars * 0.5`
(for integers, `cut > max_chars * 0.5` iff `max_chars < 2 * cut`); the
stripped slice is appended when non-empty; the loop stops when the end
reached `n`, otherwise restarts at `max(0, end - overlap_chars)`. -/
def chunkEnd (text : List Char) (maxC start : Nat) : Nat :=
  let e0 := min (start + maxC) text.length
  if e0 < text.length then
    match rfind2 (sliceL text start e0) with
    | some cut => if maxC < 2 * cut then start + cut else e0
    | none => e0
  else e0

def chunkLoop (text : List Char) (maxC ov : Nat) : Nat → Nat → Option (List (List Char))
  | 0, _ => none
  | fuel + 1, start =>
    if start < text.length then
      let e1 := chunkEnd text maxC start
      let ch := pyStrip (sliceL text start e1)
      let rest :=
        if e1 = text.length then some []
        else chunkLoop text maxC ov fuel (e1 - ov)
      rest.map (fun rs => if ch = [] then rs else ch :: rs)
    else some []

/-- The `chunk_text` function of `ingest.py` (fuelled): normalize line endings,
strip; empty text yields no chunks; otherwise run the sliding-window
loop from `start = 0`. -/
def chunk_text (text : String) (max_chars overlap_chars fuel : Nat) :
    Option (List String) :=
  let t := pyStrip (replaceCrlf text.data)
  if t = [] then some []
  else (chunkLoop t max_chars overlap_chars fuel 0).map (fun l => l.map String.mk)

/-- One record of the `results` list handed to `make_answer`: a Python
dict that may or may not carry a `"text"` key. -/
structure RDict where
  text : Option String
deriving DecidableEq

/-- The exceptions the modelled code can raise. -/
inductive PyErr
  | keyError
  | indexError
deriving DecidableEq

instance {ε α : Type} [DecidableEq ε] [DecidableEq α] : DecidableEq (Except ε α)
  | .ok a, .ok b => decidable_of_iff (a = b) (by simp)
  | .error a, .error b => decidable_of_iff (a = b) (by simp)
  | .ok _, .error _ => isFalse (fun h => Except.noConfusion h)
  | .error _, .ok _ => isFalse (fun h => Except.noConfusion h)

/-- Lookbehind test of the sentence-splitting pattern: was the previous
character `.`, `!` or `?`. -/
def isPunct3 : Option Char → Bool
  | some '.' => true
  | some '!' => true
  | some '?' => true
  | _ => false

/-- Scanner mode for `re.split(r"(?<=[\.\!\?])\s+|\n+", text)`:
scanning piece text, consuming a matched whitespace run, or consuming a
matched newline run. -/
inductive SentMode
  | txt
  | ws
  | nl

/-- Structural scanner for `re.split(r"(?<=[\.\!\?])\s+|\n+", text)`.
At each position the first alternative (a whitespace run with a
`.`/`!`/`?` immediately before it) is tried first, then a newline run;
a match closes the current piece and is consumed greedily.  After a
consumed run the following character can never start a new match (its
lookbehind is whitespace), so it is simply appended to the next piece. -/
def sentAux : SentMode → Option Char → List Char → List (List Char)
  | _, _, [] => [[]]
  | .ws, _, c :: rest =>
    if isPySpace c then sentAux .ws (some c) rest
    else
      match sentAux .txt (some c) rest with
      | [] => [[c]]
      | p :: ps => (c :: p) :: ps
  | .nl, _, c :: rest =>
    if c = '\n' then sentAux .nl (some c) rest
    else
      match sentAux .txt (some c) rest with
      | [] => [[c]]
      | p :: ps => (c :: p) :: ps
  | .txt, prev, c :: rest =>
    if isPySpace c && isPunct3 prev then [] :: sentAux .ws (some c) rest
    else if c = '\n' then [] :: sentAux .nl (some c) rest
    else
      match sentAux .txt (some c) rest with
      | [] => [[c]]
      | p :: ps => (c :: p) :: ps

/-- Model of `re.split(r"(?<=[\.\!\?])\s+|\n+", text)`. -/
def sentPieces (text : List Char) : List (List Char) := sentAux .txt none text

/-- The surviving query terms of `make_answer`:
`[t for t in q.split(" ") if len(t) >= 2]`. -/
def answerTerms (q : List Char) : List (List Char) :=
  (splitSp q).filter (fun t => 2 ≤ t.length)

/-- The per-sentence hit counter of `make_answer`: one hit for every
entry `t` of `terms` (with multiplicity) such that `t in c`. -/
def hitCount (terms : List (List Char)) (c : List Char) : Nat :=
  (terms.filter (fun t => isSub t c)).length

/-- The candidate-sentence pass of `make_answer`: for every result, split
its text (missing `"text"` keys read as `""` via `r.get`), strip each
piece, drop pieces shorter than 25 characters, score the normalized piece
against the terms, and keep `(hit, sentence)` when `hit > 0`. -/
def candSentences (terms : List (List Char)) (results : List RDict) :
    List (Nat × List Char) :=
  results.flatMap fun r =>
    (sentPieces (r.text.getD "").data).filterMap fun raw =>
      let s := pyStrip raw
      if s.length < 25 then none
      else
        let c := normalizeL s
        let hit := hitCount terms c
        if 0 < hit then some (hit, s) else none

/-- Stable descending insertion by key: an element is placed before the
first element whose key is not larger, so earlier elements stay first
among equal keys. -/
def insDesc {α : Type} (key : α → Nat) (x : α) : List α → List α
  | [] => [x]
  | y :: ys => if key x < key y then y :: insDesc key x ys else x :: y :: ys

/-- Stable descending sort by key — the order produced by Python's stable
`list.sort(key=..., reverse=True)`. -/
def sortByKeyDesc {α : Type} (key : α → Nat) : List α → List α
  | [] => []
  | x :: xs => insDesc key x (sortByKeyDesc key xs)

/-- The selection loop of `make_answer`: walk the sorted sentences,
skip those whose normalized text was already seen, collect the rest, stop
as soon as `max_sentences` have been picked. -/
def pickLoop (maxS : Nat) : List (Nat × List Char) → List (List Char) → List (List Char) → List (List Char)
  | [], _, picked => picked.reverse
  | (_, s) :: rest, seen, picked =>
    let key := normalizeL s
    if key ∈ seen then pickLoop maxS rest seen picked
    else if maxS ≤ picked.length + 1 then (s :: picked).reverse
    else pickLoop maxS rest (key :: seen) (s :: picked)

/-- The literal fallback answer of `make_answer`. -/
def fallbackMsg : String := "No answer found in your uploaded materials yet"

/-- The `make_answer` function of `ingest.py`.  Here `results[0]["text"]` raises
`KeyError` when the first result has no `"text"` key (and `IndexError` on
an empty list, which is unreachable behind the emptiness guard). -/
def make_answer (query : String) (results : List RDict) (max_sentences : Nat) :
    Except PyErr String :=
  let q := normalizeL query.data
  if q = [] ∨ results = [] then .ok fallbackMsg
  else
    let terms := answerTerms q
    let sentences := candSentences terms results
    if sentences = [] then
      match results with
      | [] => .error .indexError
      | r :: _ =>
        match r.text with
        | none => .error .keyError
        | some t => .ok (String.mk ((pyStrip t.data).take 600))
    else
      let sorted := sortByKeyDesc (fun p => p.1) sentences
      .ok (String.mk (List.intercalate [' '] (pickLoop max_sentences sorted [] [])))

/-- One chunk record of a persisted index file (`{"id": i, "text": ch}`). -/
structure ChunkRec where
  id : Nat
  text : String
deriving DecidableEq

/-- One persisted index file of `main.py` (the on-disk JSON store is the
external collaborator; `search_impl` receives its parsed contents). -/
structure IndexFile where
  stored_filename : String
  chunks : List ChunkRec
deriving DecidableEq

/-- One entry of the `results` list built by `search_impl`. -/
structure SearchR where
  stored_filename : String
  chunk_id : Nat
  score : Nat
  text : String
deriving DecidableEq

/-- The `search_impl` function of `main.py`, with the index store passed as data:
blank queries yield no results; otherwise every chunk of every index
file is scored and kept when its score is strictly positive, the list is
stably sorted by descending score, and truncated to `k`.  (The enclosing
`{"q": .., "k": .., "results": ..}` envelope is plumbing and is not
modelled.) -/
def search_impl (q : String) (k : Nat) (index : List IndexFile) : List SearchR :=
  if pyStrip q.data = [] then []
  else
    let results := index.flatMap fun f =>
      f.chunks.filterMap fun ch =>
        let s := score q ch.text
        if 0 < s then some ⟨f.stored_filename, ch.id, s, ch.text⟩ else none
    (sortByKeyDesc (fun r => r.score) results).take k

/-- Python's `\w` word character for ASCII text. -/
def isWordCh (c : Char) : Bool := c.isAlphanum || c = '_'

/-- Does `re.search(r"\b\d+(\.\d+)?\b", s)` succeed with a match whose
digit run starts at index `i`?  The run start needs a word boundary on
its left; the maximal digit run from `i` needs either the end of the
string or a non-word character on its right.  (The optional `(\.\d+)?`
group never rescues a failing match: if the character after the run is
`.` the plain `\b` already succeeds there, since `.` is not a word
character.) -/
def numTokenAt (s : List Char) (i : Nat) : Bool :=
  (s.getD i ' ').isDigit
  && (i == 0 || !isWordCh (s.getD (i - 1) ' '))
  && (let j := i + ((s.drop i).takeWhile Char.isDigit).length
      j == s.length || !isWordCh (s.getD j ' '))

/-- Whether `re.search(r"\b\d+(\.\d+)?\b", s)` succeeds somewhere in `s`. -/
def hasNumTok (s : List Char) : Bool :=
  (List.range s.length).any (numTokenAt s)

/-- The `looks_like_math_question` classifier of `main.py`. -/
def looks_like_math_question (q : String) : Bool :=
  let s := lowerL q.data
  if isSub "mole".data s || isSub "moles".data s then true
  else if isSub "grams".data s || isSub " g ".data (' ' :: (s ++ [' '])) then true
  else if hasNumTok s then true
  else false

/-- One element of the `contexts` list built by `ask_impl`. -/
structure CtxRec where
  stored_filename : String
  chunk_id : Nat
  score : Nat
  snippet : String
deriving DecidableEq

/-- The response of `ask_impl`. -/
structure AskOut where
  answer : String
  contexts : List CtxRec
deriving DecidableEq

/-- The fixed guidance message `ask_impl` returns for quantitative-looking
questions without a sufficiently scored result. -/
def overrideMsg : String :=
  "This looks like a calculation question. OrgoPivy answers from ingested notes. Add a chemistry formulas notes file and ingest it, or build a calculator endpoint for these."

/-- Model of `r["text"].strip().replace("\n", " ")`. -/
def snippetOf (text : String) : List Char :=
  (pyStrip text.data).map (fun c => if c = '\n' then ' ' else c)

/-- The `ask_impl` function of `main.py`, with the index store passed as data.
Blank questions answer `""`; the scores attached by `search_impl` are
integers, compared as floats against `0.2` (modelled exactly with `ℚ`;
the binary float `0.2` and the rational `1/5` compare identically
against integer scores).  The `try/except` around `float(...)` never
fires in the typed model. -/
def ask_impl (question : String) (top_k : Nat) (index : List IndexFile) :
    Except PyErr AskOut :=
  if pyStrip question.data = [] then .ok ⟨"", []⟩
  else
    let results := search_impl question top_k index
    let top_score : ℚ :=
      match results.head? with
      | some r => (r.score : ℚ)
      | none => 0
    if looks_like_math_question question && (results.isEmpty || decide (top_score < 1 / 5)) then
      .ok ⟨overrideMsg, []⟩
    else
      match make_answer question (results.map fun r => ⟨some r.text⟩) 5 with
      | .error e => .error e
      | .ok answer =>
        .ok ⟨answer, results.map fun r =>
          ⟨r.stored_filename, r.chunk_id, r.score, String.mk ((snippetOf r.text).take 220)⟩⟩

/-- Modelled from the spec: "the number of (possibly overlapping,
substring-level) occurrences of that term within the normalized chunk
text" — the number of positions of `s` at which `t` occurs. -/
def specOverlapCount (t s : List Char) : Nat :=
  ((List.range s.length).filter (fun i => isPre t (s.drop i))).length

/-- Modelled from the spec: "count how many distinct query terms
(length ≥ 2) occur as substrings" of a sentence — duplicated terms
count once. -/
def specDistinctHit (terms : List (List Char)) (c : List Char) : Nat :=
  (terms.dedup.filter (fun t => isSub t c)).length

/-! ### Generic list lemmas -/

theorem dropWhile_dropWhile {α : Type} (p : α → Bool) (l : List α) :
    List.dropWhile p (List.dropWhile p l) = List.dropWhile p l := by
  induction l with
  | nil => rfl
  | cons c cs ih =>
    by_cases h : p c
    · simp [List.dropWhile_cons, h, ih]
    · simp [List.dropWhile_cons, h]

theorem dropWhile_eq_self_of_prefix {α : Type} {p : α → Bool} {l l2 : List α}
    (h : List.dropWhile p l = l) (hp : l2 <+: l) : List.dropWhile p l2 = l2 := by
  cases l2 with
  | nil => rfl
  | cons a t =>
    obtain ⟨r, hr⟩ := hp
    have hpa : p a = false := by
      by_contra hpa
      rw [Bool.not_eq_false] at hpa
      rw [← hr] at h
      rw [List.cons_append, List.dropWhile_cons, if_pos hpa] at h
      have hle := (List.dropWhile_sublist (l := t ++ r) p).length_le
      rw [h, List.length_cons] at hle
      omega
    simp [List.dropWhile_cons, hpa]

/-! ### Properties of `pyStrip` -/

theorem pyStrip_lead (s : List Char) :
    List.dropWhile isPySpace (pyStrip s) = pyStrip s := by
  rw [pyStrip, dropTrail]
  apply dropWhile_eq_self_of_prefix (dropWhile_dropWhile isPySpace s)
  rw [← List.reverse_suffix, List.reverse_reverse]
  exact List.dropWhile_suffix isPySpace

theorem dropTrail_idem (u : List Char) : dropTrail (dropTrail u) = dropTrail u := by
  show ((((u.reverse.dropWhile isPySpace).reverse).reverse).dropWhile isPySpace).reverse = dropTrail u
  rw [List.reverse_reverse, dropWhile_dropWhile]
  rfl

theorem pyStrip_idem (s : List Char) : pyStrip (pyStrip s) = pyStrip s := by
  show dropTrail (List.dropWhile isPySpace (pyStrip s)) = pyStrip s
  rw [pyStrip_lead]
  show dropTrail (dropTrail (List.dropWhile isPySpace s)) = pyStrip s
  rw [dropTrail_idem]
  rfl

/-! ### The segmenter invariant (chunks are non-empty and trimmed) -/

theorem chunkLoop_sound (text : List Char) (maxC ov : Nat) :
    ∀ fuel start L, chunkLoop text maxC ov fuel start = some L →
      ∀ ch ∈ L, ch ≠ [] ∧ pyStrip ch = ch := by
  intro fuel
  induction fuel with
  | zero => intro start L h; simp [chunkLoop] at h
  | succ n ih =>
    intro start L h
    rw [chunkLoop] at h
    split at h
    · dsimp only at h
      rw [Option.map_eq_some'] at h
      obtain ⟨rs, hrs, hL⟩ := h
      intro ch hch
      rw [← hL] at hch
      have hrsmem : ∀ c0 ∈ rs, c0 ≠ [] ∧ pyStrip c0 = c0 := by
        intro c0 hc0
        split at hrs
        · rw [Option.some_inj] at hrs
          subst hrs
          simp at hc0
        · exact ih _ rs hrs c0 hc0
      split at hch
      · exact hrsmem ch hch
      · rcases List.mem_cons.mp hch with hh | hh
        · subst hh
          refine ⟨by assumption, pyStrip_idem _⟩
        · exact hrsmem ch hh
    · rw [Option.some_inj] at h
      subst h
      intro ch hch
      simp at hch

/-- C9: every chunk emitted by `chunk_text` is non-empty and equal to its
own trimmed form, for every input text, parameter pair, and fuel for
which the loop finishes; in particular no empty or whitespace-only chunk
is ever returned. -/
theorem C9_chunks_nonempty_trimmed (text : String) (maxC ov fuel : Nat)
    (L : List String) (h : chunk_text text maxC ov fuel = some L) :
    ∀ ch ∈ L, ch ≠ "" ∧ String.mk (pyStrip ch.data) = ch := by
  rw [chunk_text] at h
  split at h
  · rw [Option.some_inj] at h
    subst h
    intro ch hch
    simp at hch
  · rw [Option.map_eq_some'] at h
    obtain ⟨L0, hL0, hL⟩ := h
    subst hL
    intro ch hch
    rw [List.mem_map] at hch
    obtain ⟨l, hl, hchl⟩ := hch
    have hinv := chunkLoop_sound _ maxC ov fuel 0 L0 hL0 l hl
    subst hchl
    constructor
    · intro hemp
      have := congrArg String.data hemp
      exact hinv.1 this
    · show String.mk (pyStrip l) = String.mk l
      rw [hinv.2]

/-- Witness for C9 at a concrete run. -/
theorem C9_witness :
    ("hello" : String) ≠ "" ∧ String.mk (pyStrip ("hello" : String).data) = "hello" :=
  C9_chunks_nonempty_trimmed "hello" 900 120 1 ["hello"] (by decide) "hello" (by decide)

/-! ### Non-termination of the segmenter loop -/

/-- C2: contrary to the claimed bound of `ceil(n / (max_size - overlap))`
iterations for `0 ≤ overlap < max_size`, the loop of `chunk_text` does
not even terminate on this input with `max_chars = 10 > 6 = overlap_chars`:
the window `[0,10)` contains a paragraph break at offset `6 > 10 * 0.5`,
so `end` snaps to `6` and the next start is `max(0, 6 - 6) = 0` — the
state repeats forever.  No amount of fuel makes the loop finish. -/
theorem C2_nontermination :
    ∀ fuel, chunk_text "aaaaaa\n\nbbbbbbbbbbbbbbbbbbbb" 10 6 fuel = none := by
  have key : ∀ f, chunkLoop ("aaaaaa\n\nbbbbbbbbbbbbbbbbbbbb".data) 10 6 f 0 = none := by
    intro f
    induction f with
    | zero => rfl
    | succ n ih =>
      have step : chunkLoop ("aaaaaa\n\nbbbbbbbbbbbbbbbbbbbb".data) 10 6 (n + 1) 0 =
          Option.map (fun rs => "aaaaaa".data :: rs)
            (chunkLoop ("aaaaaa\n\nbbbbbbbbbbbbbbbbbbbb".data) 10 6 n 0) := rfl
      rw [step, ih]
      rfl
  intro fuel
  have hopen : chunk_text "aaaaaa\n\nbbbbbbbbbbbbbbbbbbbb" 10 6 fuel =
      Option.map (fun l => l.map String.mk)
        (chunkLoop ("aaaaaa\n\nbbbbbbbbbbbbbbbbbbbb".data) 10 6 fuel 0) := rfl
  rw [hopen, key]
  rfl

/-- C3: contrary to the claimed defensive clamping, the advancement rule
`start = max(0, end - overlap)` makes no forward progress when
`overlap >= end`: with `max_chars = overlap_chars = 1` on `"ab"` the
loop re-emits the chunk `"a"` from `start = 0` forever. -/
theorem C3_nontermination : ∀ fuel, chunk_text "ab" 1 1 fuel = none := by
  have key : ∀ f, chunkLoop ("ab".data) 1 1 f 0 = none := by
    intro f
    induction f with
    | zero => rfl
    | succ n ih =>
      have step : chunkLoop ("ab".data) 1 1 (n + 1) 0 =
          Option.map (fun rs => "a".data :: rs) (chunkLoop ("ab".data) 1 1 n 0) := rfl
      rw [step, ih]
      rfl
  intro fuel
  have hopen : chunk_text "ab" 1 1 fuel =
      Option.map (fun l => l.map String.mk) (chunkLoop ("ab".data) 1 1 fuel 0) := rfl
  rw [hopen, key]
  rfl

/-! ### Properties of `isPre` and `pyCount` -/

theorem isPre_length {t s : List Char} (h : isPre t s = true) : t.length ≤ s.length := by
  induction t generalizing s with
  | nil => simp
  | cons a as ih =>
    cases s with
    | nil => simp [isPre] at h
    | cons b bs =>
      rw [isPre, Bool.and_eq_true] at h
      have := ih h.2
      simp
      omega

theorem isPre_append {t s : List Char} (r : List Char) (h : isPre t s = true) :
    isPre t (s ++ r) = true := by
  induction t generalizing s with
  | nil => rfl
  | cons a as ih =>
    cases s with
    | nil => simp [isPre] at h
    | cons b bs =>
      rw [isPre, Bool.and_eq_true] at h
      rw [List.cons_append, isPre, Bool.and_eq_true]
      exact ⟨h.1, ih h.2⟩

theorem isPre_append_of_le {t s : List Char} (r : List Char) (h : t.length ≤ s.length) :
    isPre t (s ++ r) = isPre t s := by
  induction t generalizing s with
  | nil => rfl
  | cons a as ih =>
    cases s with
    | nil => simp at h
    | cons b bs =>
      rw [List.cons_append, isPre, isPre]
      rw [List.length_cons, List.length_cons, Nat.add_le_add_iff_right] at h
      rw [ih h]

theorem pyCountAux_skip (t : List Char) :
    ∀ (s : List Char) (k : Nat), pyCountAux t k s = pyCount t (s.drop k) := by
  intro s
  induction s with
  | nil => intro k; cases k <;> rfl
  | cons c cs ih =>
    intro k
    cases k with
    | zero => rfl
    | succ m =>
      rw [List.drop_succ_cons]
      exact ih m

theorem pyCount_cons (t : List Char) (c : Char) (cs : List Char) :
    pyCount t (c :: cs) =
      if isPre t (c :: cs) then 1 + pyCount t (cs.drop (t.length - 1))
      else pyCount t cs := by
  rw [pyCount, pyCountAux]
  rw [pyCountAux_skip]
  rfl

theorem pyCount_zero_of_long {t s : List Char} (h : s.length < t.length) :
    pyCount t s = 0 := by
  induction s with
  | nil => rfl
  | cons c cs ih =>
    rw [pyCount_cons]
    rw [if_neg]
    · exact ih (by simp at h ⊢; omega)
    · intro hpre
      have := isPre_length hpre
      omega

theorem pyCount_le_append (t : List Char) :
    ∀ (N : Nat) (a r : List Char), a.length ≤ N → pyCount t a ≤ pyCount t (a ++ r) := by
  intro N
  induction N with
  | zero =>
    intro a r h
    interval_cases ha : a.length
    rw [List.length_eq_zero] at ha
    subst ha
    simp [pyCount, pyCountAux]
  | succ n ih =>
    intro a r h
    cases a with
    | nil => simp [pyCount, pyCountAux]
    | cons c cs =>
      rw [List.cons_append, pyCount_cons, pyCount_cons t c (cs ++ r)]
      by_cases h1 : isPre t (c :: cs) = true
      · have h2 : isPre t (c :: (cs ++ r)) = true := by
          have := isPre_append r h1
          rw [List.cons_append] at this
          exact this
        rw [if_pos h1, if_pos h2]
        have hlt : t.length - 1 ≤ cs.length := by
          have := isPre_length h1
          simp at this
          omega
        rw [List.drop_append_of_le_length hlt]
        have hrec := ih (cs.drop (t.length - 1)) r
          (by rw [List.length_drop]; simp at h; omega)
        omega
      · rw [if_neg h1]
        by_cases h2 : isPre t (c :: (cs ++ r)) = true
        · rw [if_pos h2]
          have hlong : (c :: cs).length < t.length := by
            by_contra hle
            push_neg at hle
            rw [show c :: (cs ++ r) = (c :: cs) ++ r from rfl,
              isPre_append_of_le r hle] at h2
            exact h1 h2
          have hz : pyCount t cs = 0 :=
            pyCount_zero_of_long (by simp at hlong ⊢; omega)
          omega
        · rw [if_neg h2]
          exact ih cs r (by simp at h; omega)

theorem pyCount_le_of_prefix (t : List Char) {a b : List Char} (h : a <+: b) :
    pyCount t a ≤ pyCount t b := by
  obtain ⟨r, hr⟩ := h
  subst hr
  exact pyCount_le_append t a.length a r (Nat.le_refl _)

/-! ### Appending text on the right extends the normalized text -/

theorem collapseAux_prefix (y : List Char) :
    ∀ (x : List Char) (b : Bool), collapseAux b x <+: collapseAux b (x ++ y) := by
  intro x
  induction x with
  | nil => intro b; exact List.nil_prefix
  | cons c cs ih =>
    intro b
    rw [List.cons_append, collapseAux, collapseAux]
    by_cases hc : isPySpace c = true
    · rw [if_pos hc, if_pos hc]
      by_cases hb : b = true
      · rw [if_pos hb, if_pos hb]
        exact ih true
      · rw [if_neg hb, if_neg hb]
        obtain ⟨r, hr⟩ := ih true
        exact ⟨r, by rw [List.cons_append, hr]⟩
    · rw [if_neg hc, if_neg hc]
      obtain ⟨r, hr⟩ := ih false
      exact ⟨r, by rw [List.cons_append, hr]⟩

theorem dropTrail_prefix_append (u r : List Char) : dropTrail u <+: dropTrail (u ++ r) := by
  rw [dropTrail, dropTrail]
  rw [← List.reverse_suffix, List.reverse_reverse, List.reverse_reverse]
  rw [List.reverse_append, List.dropWhile_append]
  split
  · exact List.suffix_refl _
  · exact (List.dropWhile_suffix isPySpace).trans (List.suffix_append _ _)

theorem pyStrip_prefix_append (a r : List Char) : pyStrip a <+: pyStrip (a ++ r) := by
  rw [pyStrip, pyStrip, List.dropWhile_append]
  split
  · rename_i hemp
    rw [List.isEmpty_iff] at hemp
    rw [hemp]
    exact List.nil_prefix
  · exact dropTrail_prefix_append _ _

theorem normalizeL_prefix_append (c d : List Char) :
    normalizeL c <+: normalizeL (c ++ d) := by
  have hmap : lowerL (c ++ d) = lowerL c ++ lowerL d := by
    rw [lowerL, lowerL, lowerL, List.map_append]
  rw [normalizeL, normalizeL, hmap, collapseWs, collapseWs]
  obtain ⟨r, hr⟩ := collapseAux_prefix (lowerL d) (lowerL c) false
  rw [← hr]
  exact pyStrip_prefix_append _ r

/-! ### `score` as a sum over the surviving terms -/

theorem foldl_score_eq_sum (c : List Char) :
    ∀ (l : List (List Char)) (a : Nat),
      l.foldl (fun s t => if t.length < 2 then s else s + pyCount t c) a =
        a + ((l.filter (fun t => 2 ≤ t.length)).map (fun t => pyCount t c)).sum := by
  intro l
  induction l with
  | nil => intro a; simp
  | cons t ts ih =>
    intro a
    rw [List.foldl_cons, List.filter_cons]
    by_cases h2 : t.length < 2
    · rw [if_pos h2]
      rw [ih a]
      have : (decide (2 ≤ t.length)) = false := by simp; omega
      rw [this]
      simp
    · rw [if_neg h2]
      rw [ih (a + pyCount t c)]
      have : (decide (2 ≤ t.length)) = true := by simp; omega
      rw [this]
      simp
      omega

theorem scoreL_eq_sum (q c : List Char) :
    scoreL q c =
      (((splitSp (normalizeL q)).filter (fun t => 2 ≤ t.length)).map
        (fun t => pyCount t (normalizeL c))).sum := by
  rw [scoreL]
  by_cases hq : normalizeL q = []
  · rw [if_pos hq, hq]
    rfl
  · rw [if_neg hq]
    rw [foldl_score_eq_sum, Nat.zero_add]
    rw [List.filter_filter]
    have hf : ∀ t ∈ splitSp (normalizeL q),
        (decide (2 ≤ t.length) && !t.isEmpty) = decide (2 ≤ t.length) := by
      intro t _
      by_cases h2 : 2 ≤ t.length
      · have hne : t.isEmpty = false := by
          cases t
          · simp at h2
          · rfl
        simp [h2, hne]
      · simp [h2]
    rw [List.filter_congr hf]

/-- C1 counterexample: the claim says `score` adds the *possibly
overlapping* occurrences of each term, so that the self-overlapping term
`"aa"` in chunk `"aaa"` contributes 2; on the code (Python's
non-overlapping `str.count`) `score "aa" "aaa" = 1`, while the
occurrence count in the spec's overlapping sense is 2. -/
theorem C1_counterexample :
    score "aa" "aaa" = 1 ∧
      specOverlapCount ("aa".data) (normalizeL ("aaa".data)) = 2 ∧ (1 : Nat) ≠ 2 :=
  ⟨by decide, by decide, by decide⟩

/-- C1 amended: for every query and chunk text, `score` returns, for each
surviving query term (length ≥ 2 after normalization), the number of
*non-overlapping* (greedy left-to-right) substring occurrences of the
term in the normalized chunk text, summed over all terms. -/
theorem C1_amended_sum_of_nonoverlapping (q c : String) :
    score q c =
      (((splitSp (normalizeL q.data)).filter (fun t => 2 ≤ t.length)).map
        (fun t => pyCount t (normalizeL c.data))).sum :=
  scoreL_eq_sum q.data c.data

/-- C8: `score q c ≥ 0` always, and appending text (in particular, more
occurrences of a query term) on the right of the chunk never decreases
the chunk's score for that query. -/
theorem C8_score_nonneg_monotone (q c d : String) :
    0 ≤ score q c ∧ score q c ≤ score q (c ++ d) := by
  refine ⟨Nat.zero_le _, ?_⟩
  rw [score, score, String.data_append]
  rw [scoreL_eq_sum, scoreL_eq_sum]
  apply List.sum_le_sum
  intro t _
  exact pyCount_le_of_prefix t (normalizeL_prefix_append c.data d.data)

/-! ### The fallback behaviour of `make_answer` -/

/-- C4 counterexample: for the query `"a b"` (which normalizes to a
non-empty string but yields no term of length ≥ 2) and a non-empty
results list, `make_answer` does not return the fallback string — it
falls through to the zero-candidate branch and returns the top result's
text. -/
theorem C4_counterexample :
    make_answer "a b" [⟨some "xxxxxxxxxxxxxxxxxxxxxxxxxxxxxx"⟩] 5 =
        .ok "xxxxxxxxxxxxxxxxxxxxxxxxxxxxxx" ∧
      ("xxxxxxxxxxxxxxxxxxxxxxxxxxxxxx" : String) ≠ fallbackMsg :=
  ⟨by decide, by decide⟩

/-- C4 amended: `make_answer` returns the literal fallback string exactly
when the *normalized query string* is empty or the results list is empty
(the code tests string emptiness, not term survival: a query of
single-character tokens normalizes to a non-empty string and skips the
guard). -/
theorem C4_amended_fallback (query : String) (results : List RDict) (ms : Nat)
    (h : normalizeL query.data = [] ∨ results = []) :
    make_answer query results ms = .ok fallbackMsg := by
  rcases h with h | h <;> simp [make_answer, h]

/-- Witness for C4 amended at a concrete input. -/
theorem C4_witness :
    make_answer "" [⟨some "some stored text"⟩] 5 = .ok fallbackMsg :=
  C4_amended_fallback "" [⟨some "some stored text"⟩] 5 (Or.inl (by decide))

/-- C6 counterexample: when the first result lacks a `"text"` key and no
candidate sentence survives, `make_answer` raises `KeyError` from
`results[0]["text"]` instead of returning a string. -/
theorem C6_counterexample :
    make_answer "ab" [⟨none⟩] 5 = .error .keyError := by decide

/-- C6 amended: `make_answer` never raises on any query and any results
list whose elements all carry a `"text"` field (empty query, empty
results, and no matching sentences included); the only raising input
shape is a first result without `"text"` reached with zero candidate
sentences. -/
theorem C6_amended_no_raise (query : String) (results : List RDict) (ms : Nat)
    (h : ∀ r ∈ results, r.text ≠ none) :
    ∃ a, make_answer query results ms = .ok a := by
  by_cases hg : normalizeL query.data = [] ∨ results = []
  · exact ⟨fallbackMsg, by rcases hg with hg | hg <;> simp [make_answer, hg]⟩
  · push_neg at hg
    obtain ⟨hq, hres⟩ := hg
    cases results with
    | nil => exact absurd rfl hres
    | cons r rs =>
      by_cases hs : candSentences (answerTerms (normalizeL query.data)) (r :: rs) = []
      · have hr := h r (List.mem_cons_self r rs)
        cases ht : r.text with
        | none => exact absurd ht hr
        | some t =>
          refine ⟨String.mk ((pyStrip t.data).take 600), ?_⟩
          simp [make_answer, hq, hs, ht]
      · refine ⟨String.mk (List.intercalate [' ']
          (pickLoop ms (sortByKeyDesc (fun p => p.1)
            (candSentences (answerTerms (normalizeL query.data)) (r :: rs))) [] [])), ?_⟩
        simp [make_answer, hq, hs]

/-- Witness for C6 amended at a concrete input. -/
theorem C6_witness :
    ∃ a, make_answer "ab" [⟨some "hello"⟩] 5 = .ok a :=
  C6_amended_no_raise "ab" [⟨some "hello"⟩] 5 (by decide)

/-- C7 counterexample: with one result whose text is whitespace-only, no
sentence matches and `make_answer` returns the first 600 characters of
the trimmed top text — which is the *empty* string, contradicting the
claimed non-emptiness whenever at least one result exists. -/
theorem C7_counterexample :
    make_answer "ab" [⟨some "   "⟩] 5 = .ok "" := by decide

/-- C7 amended: for every query with a non-empty normalization and every
non-empty results list whose top result carries text `t`, if no candidate
sentence survives then `make_answer` returns the first 600 characters of
the trimmed top text, and that fallback is non-empty provided the trimmed
top text is non-empty (not in general: a whitespace-only top text yields
`""`). -/
theorem C7_amended_top600 (query : String) (r : RDict) (rs : List RDict)
    (ms : Nat) (t : String)
    (hq : normalizeL query.data ≠ [])
    (ht : r.text = some t)
    (hs : candSentences (answerTerms (normalizeL query.data)) (r :: rs) = []) :
    make_answer query (r :: rs) ms = .ok (String.mk ((pyStrip t.data).take 600)) ∧
      (pyStrip t.data ≠ [] → String.mk ((pyStrip t.data).take 600) ≠ "") := by
  constructor
  · simp [make_answer, hq, hs, ht]
  · intro hne h600
    have hdata : (pyStrip t.data).take 600 = [] := congrArg String.data h600
    rw [List.take_eq_nil_iff] at hdata
    rcases hdata with h | h
    · omega
    · exact hne h

/-- Witness for C7 amended at a concrete input. -/
theorem C7_witness :
    make_answer "ab" [⟨some "zz"⟩] 5 = .ok (String.mk ((pyStrip "zz".data).take 600)) ∧
      (pyStrip "zz".data ≠ [] → String.mk ((pyStrip "zz".data).take 600) ≠ "") :=
  C7_amended_top600 "ab" ⟨some "zz"⟩ [] 5 "zz" (by decide) rfl (by decide)

/-! ### The per-sentence hit count of `make_answer` -/

theorem hitCount_eq_distinct_of_nodup {terms : List (List Char)} (c : List Char)
    (hnd : terms.Nodup) : hitCount terms c = specDistinctHit terms c := by
  rw [specDistinctHit, hnd.dedup, hitCount]

/-- C5 counterexample: for the query `"ab ab"` (the same term surviving
twice) the candidate-sentence pass of `make_answer` stores hit count 2
for a sentence containing `"ab"`, while the number of *distinct* query
terms occurring in it is 1. -/
theorem C5_counterexample :
    candSentences (answerTerms (normalizeL "ab ab".data))
        [⟨some "ab with enough characters"⟩] =
        [(2, "ab with enough characters".data)] ∧
      specDistinctHit (answerTerms (normalizeL "ab ab".data))
        (normalizeL "ab with enough characters".data) = 1 ∧ (2 : Nat) ≠ 1 :=
  ⟨by decide, by decide, by decide⟩

/-- C5 amended: each surviving sentence's hit count equals one hit per
*term entry* (with multiplicity) that occurs as a substring of the
normalized sentence; this coincides with the number of distinct occurring
query terms exactly when the surviving term list has no duplicates (a
term still counts at most once per sentence regardless of repeated
occurrences inside the sentence). -/
theorem C5_amended_distinct_of_nodup (terms : List (List Char))
    (results : List RDict) (hit : Nat) (s : List Char)
    (hnd : terms.Nodup) (hm : (hit, s) ∈ candSentences terms results) :
    hit = hitCount terms (normalizeL s) ∧
      hit = specDistinctHit terms (normalizeL s) := by
  simp only [candSentences, List.mem_flatMap, List.mem_filterMap] at hm
  obtain ⟨r, hr, raw, hraw, heq⟩ := hm
  split at heq
  · exact absurd heq (by simp)
  · split at heq
    · rw [Option.some_inj, Prod.mk.injEq] at heq
      obtain ⟨hhit, hsent⟩ := heq
      subst hsent
      subst hhit
      exact ⟨rfl, hitCount_eq_distinct_of_nodup _ hnd⟩
    · exact absurd heq (by simp)

/-- Witness for C5 amended at a concrete input. -/
theorem C5_witness :
    2 = hitCount (answerTerms (normalizeL "ab cd".data))
        (normalizeL "ab with enough characters cd".data) ∧
      2 = specDistinctHit (answerTerms (normalizeL "ab cd".data))
        (normalizeL "ab with enough characters cd".data) :=
  C5_amended_distinct_of_nodup (answerTerms (normalizeL "ab cd".data))
    [⟨some "ab with enough characters cd"⟩] 2 ("ab with enough characters cd".data)
    (by decide) (by decide)

/-! ### The quantitative-question override of `ask_impl` -/

theorem mem_insDesc {α : Type} (key : α → Nat) (a x : α) :
    ∀ l : List α, x ∈ insDesc key a l ↔ x = a ∨ x ∈ l := by
  intro l
  induction l with
  | nil => simp [insDesc]
  | cons y ys ih =>
    rw [insDesc]
    split
    · rw [List.mem_cons, ih, List.mem_cons]
      tauto
    · rw [List.mem_cons, List.mem_cons]

theorem mem_sortByKeyDesc {α : Type} (key : α → Nat) (x : α) :
    ∀ l : List α, x ∈ sortByKeyDesc key l ↔ x ∈ l := by
  intro l
  induction l with
  | nil => simp [sortByKeyDesc]
  | cons y ys ih =>
    rw [sortByKeyDesc, mem_insDesc, ih, List.mem_cons]

theorem insDesc_ne_nil {α : Type} (key : α → Nat) (a : α) (l : List α) :
    insDesc key a l ≠ [] := by
  cases l with
  | nil => simp [insDesc]
  | cons y ys =>
    rw [insDesc]
    split <;> simp

theorem sortByKeyDesc_eq_nil_iff {α : Type} (key : α → Nat) (l : List α) :
    sortByKeyDesc key l = [] ↔ l = [] := by
  cases l with
  | nil => simp [sortByKeyDesc]
  | cons y ys =>
    rw [sortByKeyDesc]
    simp [insDesc_ne_nil]

theorem search_impl_mem_score {q : String} {k : Nat} {index : List IndexFile}
    {r : SearchR} (h : r ∈ search_impl q k index) : 1 ≤ r.score := by
  rw [search_impl] at h
  split at h
  · simp at h
  · have hmem := List.mem_of_mem_take h
    rw [mem_sortByKeyDesc, List.mem_flatMap] at hmem
    obtain ⟨f, _, hf⟩ := hmem
    rw [List.mem_filterMap] at hf
    obtain ⟨ch, _, hch⟩ := hf
    dsimp only at hch
    split at hch
    · rw [Option.some_inj] at hch
      subst hch
      rename_i hpos
      exact hpos
    · exact absurd hch (by simp)

theorem search_impl_eq_nil_iff {q : String} {k : Nat} {index : List IndexFile}
    (hq : pyStrip q.data ≠ []) (hk : 1 ≤ k) :
    search_impl q k index = [] ↔
      ∀ f ∈ index, ∀ ch ∈ f.chunks, score q ch.text = 0 := by
  rw [search_impl, if_neg hq]
  rw [List.take_eq_nil_iff]
  constructor
  · intro h f hf ch hch
    rcases h with h | h
    · omega
    · rw [sortByKeyDesc_eq_nil_iff, List.flatMap_eq_nil_iff] at h
      have := h f hf
      rw [List.filterMap_eq_nil_iff] at this
      have hcc := this ch hch
      dsimp only at hcc
      split at hcc
      · exact absurd hcc (by simp)
      · omega
  · intro h
    right
    rw [sortByKeyDesc_eq_nil_iff, List.flatMap_eq_nil_iff]
    intro f hf
    rw [List.filterMap_eq_nil_iff]
    intro ch hch
    have hz := h f hf ch hch
    dsimp only
    rw [if_neg (by omega)]

/-- C10 counterexample: with `top_k = 0` the truncation empties the
results list even though a chunk scored positively, so the quantitative
override fires although the claim says it fires iff no chunk scored
positively. -/
theorem C10_counterexample :
    ask_impl "how many moles" 0 [⟨"f", [⟨0, "moles moles moles"⟩]⟩] =
        .ok ⟨overrideMsg, []⟩ ∧
      0 < score "how many moles" "moles moles moles" :=
  ⟨by decide, by decide⟩

/-- C10 amended: for every quantitative-looking, non-blank question and
every `top_k ≥ 1`, the override message (with empty contexts) is returned
iff no stored chunk scored strictly positively against the question — the
guard `not results or top_score < 0.2` is equivalent to the results list
being empty because every kept score is an integer at least 1. -/
theorem C10_amended_override_iff (question : String) (k : Nat)
    (index : List IndexFile)
    (hm : looks_like_math_question question = true)
    (hq : pyStrip question.data ≠ [])
    (hk : 1 ≤ k) :
    ask_impl question k index = .ok ⟨overrideMsg, []⟩ ↔
      ∀ f ∈ index, ∀ ch ∈ f.chunks, score question ch.text = 0 := by
  rw [ask_impl, if_neg hq]
  constructor
  · intro h
    by_cases hemp : search_impl question k index = []
    · exact (search_impl_eq_nil_iff hq hk).mp hemp
    · exfalso
      obtain ⟨r0, rs0, hcons⟩ : ∃ a l, search_impl question k index = a :: l := by
        cases hsr : search_impl question k index with
        | nil => exact absurd hsr hemp
        | cons a l => exact ⟨a, l, rfl⟩
      have h1 : 1 ≤ r0.score :=
        search_impl_mem_score (hcons ▸ List.mem_cons_self r0 rs0)
      rw [hcons] at h
      have hsc : ¬((r0.score : ℚ) < 1 / 5) := by
        have hcast : (1 : ℚ) ≤ (r0.score : ℚ) := by exact_mod_cast h1
        have h15 : (1 : ℚ) / 5 < 1 := by norm_num
        linarith
      simp only [List.head?_cons, List.isEmpty_cons] at h
      simp only [decide_eq_false hsc, Bool.false_or, Bool.and_false] at h
      rw [if_neg (by simp)] at h
      cases hma : make_answer question
          (List.map (fun r => ({ text := some r.text } : RDict)) (r0 :: rs0)) 5 with
      | error e =>
        rw [hma] at h
        exact Except.noConfusion h
      | ok ans =>
        rw [hma] at h
        dsimp only at h
        rw [Except.ok.injEq] at h
        have hctx := congrArg AskOut.contexts h
        simp at hctx
  · intro hall
    have hemp : search_impl question k index = [] :=
      (search_impl_eq_nil_iff hq hk).mpr hall
    rw [hemp, hm]
    rfl

/-- Witness for C10 amended at a concrete input. -/
theorem C10_witness :
    ask_impl "how many moles" 1 [⟨"f", [⟨0, "zzzz"⟩]⟩] = .ok ⟨overrideMsg, []⟩ :=
  (C10_amended_override_iff "how many moles" 1 [⟨"f", [⟨0, "zzzz"⟩]⟩]
    (by decide) (by decide) (by decide)).mpr (by decide)


/-! ### Concrete evaluations of the model (the spec's worked examples among them) -/

example : score "glucose moles" "The glucose sample had 2 moles of glucose." = 3 := by decide

example : score "aa" "aaa" = 1 := by decide

example : score "" "anything" = 0 := by decide

example : chunk_text "hello" 900 120 1 = some ["hello"] := by decide

example : chunk_text "   " 900 120 5 = some [] := by decide

example : sentPieces "a. b\n\nc".data = ["a.".data, "b".data, "c".data] := by decide

example : sentPieces "a\n \nb".data = ["a".data, " ".data, "b".data] := by decide

example : make_answer "what is glucose" [] 5 = .ok fallbackMsg := by decide

example :
    make_answer "glucose" [⟨some "Glucose is a simple sugar and monosaccharide. Tiny."⟩] 5 =
      .ok "Glucose is a simple sugar and monosaccharide." := by decide

example : looks_like_math_question "how many moles are in 5 g of NaCl" = true := by decide

example : looks_like_math_question "what is an aldol condensation" = false := by decide

example : looks_like_math_question "the x5 sample" = false := by decide

example : looks_like_math_question "sample 5x here" = false := by decide

example : looks_like_math_question "take 5 now" = true := by decide

example :
    ask_impl "how many moles" 0 [⟨"f", [⟨0, "moles moles moles"⟩]⟩] =
      .ok ⟨overrideMsg, []⟩ := by decide

end OrgoPivy
